import Mathlib

namespace SystemProgress

/-! ## IEEE 754 rounding

`double` and `f32` values are kept as rationals; an operation is the exact operation
followed by rounding to nearest, ties to even, at 53 or 24 significant bits. Every value
the percentage computation can produce is 0 or lies between 2^-64 and 2^71, inside the
normal range of both formats, so neither overflow nor gradual underflow occurs. -/

/-- Nearest integer, ties to the even one. -/
def roundHalfEven (y : ℚ) : ℤ :=
  if y - ⌊y⌋ < 1 / 2 then ⌊y⌋
  else if 1 / 2 < y - ⌊y⌋ then ⌊y⌋ + 1
  else if ⌊y⌋ % 2 = 0 then ⌊y⌋ else ⌊y⌋ + 1

/-- Spacing of the numbers with `p` significant bits in the binade of `x`. -/
def ulp (p : ℕ) (x : ℚ) : ℚ := (2 : ℚ) ^ (Int.log 2 |x| - ((p : ℤ) - 1))

/-- Round to nearest, ties to even, at `p` significant bits. -/
def roundNearest (p : ℕ) (x : ℚ) : ℚ :=
  if x = 0 then 0 else roundHalfEven (x / ulp p x) * ulp p x

/-- Rounding to `double` (binary64). -/
def f64 (x : ℚ) : ℚ := roundNearest 53 x

/-- Rounding to `f32` (binary32). -/
def f32 (x : ℚ) : ℚ := roundNearest 24 x

/-! ## The percentage of lines 155-159 -/

/-- Line 157, a product of `u64`. -/
def total (ftotal ptotal : ℕ) : ℕ := (max ptotal 1 * max ftotal 1) % 2 ^ 64

/-- Line 158, a product of `u64`. -/
def done (fdone pdone : ℕ) : ℕ := (pdone * max fdone 1) % 2 ^ 64

/-- Line 159: `static_cast<f32>(std::fmin(done * 100. / total, 100.f))`. Both integers are
converted to `double`, the product and the quotient are `double` operations, `fmin` is exact,
and the result is narrowed to `f32`. -/
def value (ftotal fdone ptotal pdone : ℕ) : ℚ :=
  f32 (min (f64 (f64 (f64 (done fdone pdone) * 100) / f64 (total ftotal ptotal))) 100)

/-- The number handed to the progress bar, `std::floor(value)` (lines 173 and 181). -/
def displayed (ftotal fdone ptotal pdone : ℕ) : ℕ := ⌊value ftotal fdone ptotal pdone⌋.toNat

/-! ## Shared state, effects and the server loop -/

/-- Modelled from the spec: the `%u` conversion of `fmt::append` (the formatting
library of the repository is not under src/); it prints a `u32` in unsigned decimal. -/
def fmt_u (n : ℕ) : String := toString n

/-- Status string of lines 161-166. -/
def progr (ftotal fdone ptotal pdone : ℕ) : String :=
  let s0 := "Progress:"
  let s1 :=
    if ftotal ≠ 0 then
      s0 ++ (" file " ++ fmt_u fdone ++ " of " ++ fmt_u ftotal ++ (if ptotal ≠ 0 then "," else ""))
    else s0
  if ptotal ≠ 0 then s1 ++ (" module " ++ fmt_u pdone ++ " of " ++ fmt_u ptotal) else s1

/-- The file-scope atomics of lines 14-24. A `const char*` is its address, 0 for `nullptr`;
the counters are `u32`. -/
structure Shared where
  g_progr : ℕ
  g_progr_ftotal : ℕ
  g_progr_fdone : ℕ
  g_progr_ptotal : ℕ
  g_progr_pdone : ℕ
  g_system_progress_canceled : Bool
  g_system_progress_stopping : Bool
deriving DecidableEq

/-- Closures handed to `Emu.CallFromMainThread`. -/
inductive MainTask where
  /-- lines 98-103: log the notice and call `Emu.GracefulShutdown(false, true)` -/
  | graceful_shutdown
  /-- lines 108-111: `dlg->Create(text0, text0)` -/
  | dlg_create (text0 : ℕ)
  /-- lines 177-182: `SetMsg`, `ProgressBarSetMsg(0, progr)`, `ProgressBarSetValue(0, value)` -/
  | dlg_update (text_new : ℕ) (progr : String) (value : ℕ)
  /-- lines 210-213: `dlg->Close(true)` -/
  | dlg_close
deriving DecidableEq

/-- Calls the server makes on its collaborators, in program order. -/
inductive Event where
  | wait_for (usec : ℕ)
  | renderer_wait
  | native_create
  | native_show (text0 : ℕ)
  | native_progress_bar_set_message (msg : String)
  | native_set_text (text : ℕ)
  | native_progress_bar_set_value (value : ℕ)
  | native_close
  | native_refresh
  | call_from_main_thread (task : MainTask)
  | show_ppu_compile_notification
  | refresh_message_queue
  | notify_all
deriving DecidableEq

/-- Everything the server reads or writes: the atomics, the state of its own thread,
the configuration flag of line 147, and the calls it has made so far. -/
structure World where
  shared : Shared
  aborting : Bool
  show_ppu_compilation_hint : Bool
  log : List Event
deriving DecidableEq

/-- What the other threads have stored by the time the server reads again. They own the
label, the four counters, the stop request and the abort state; `g_system_progress_canceled`
is written only by line 61 and by the close callback. -/
structure Tick where
  g_progr : ℕ
  g_progr_ftotal : ℕ
  g_progr_fdone : ℕ
  g_progr_ptotal : ℕ
  g_progr_pdone : ℕ
  g_system_progress_stopping : Bool
  aborting : Bool
  show_ppu_compilation_hint : Bool
deriving DecidableEq

def World.emit (w : World) (e : Event) : World := { w with log := w.log ++ [e] }

def World.interfere (w : World) (t : Tick) : World :=
  { w with
    shared := { w.shared with
      g_progr := t.g_progr
      g_progr_ftotal := t.g_progr_ftotal
      g_progr_fdone := t.g_progr_fdone
      g_progr_ptotal := t.g_progr_ptotal
      g_progr_pdone := t.g_progr_pdone
      g_system_progress_stopping := t.g_system_progress_stopping }
    aborting := t.aborting
    show_ppu_compilation_hint := t.show_ppu_compilation_hint }

/-- The test `g_system_progress_stopping || thread_ctrl::state() == thread_state::aborting`. -/
def stop_requested (w : World) : Bool := w.shared.g_system_progress_stopping || w.aborting

/-- The external subsystems consulted by lines 67-91, each as present or absent. -/
structure Host where
  renderer : Bool
  manager : Bool
  show_overlay_message_only : Bool
  msg_dialog : Bool
deriving DecidableEq

/-- The three variables that decide where a session reports to. -/
structure Target where
  show_overlay_message : Bool
  native_dlg : Bool
  dlg : Bool
deriving DecidableEq

/-- Lines 64-112. `native_dlg` is the variable of line 37, which outlives the session. -/
def select_target (h : Host) (native_dlg : Bool) (text0 : ℕ) (w : World) : Target × World :=
  let r : Bool × Bool × World :=
    if h.renderer then
      let w1 := w.emit .renderer_wait
      if h.manager && !h.show_overlay_message_only then
        (h.show_overlay_message_only, true,
          ((w1.emit .native_create).emit (.native_show text0)).emit
            (.native_progress_bar_set_message "Please wait"))
      else (h.show_overlay_message_only, native_dlg, w1)
    else (false, native_dlg, w)
  if !r.1 && !r.2.1 && h.msg_dialog then
    (⟨r.1, r.2.1, true⟩, r.2.2.emit (.call_from_main_thread (.dlg_create text0)))
  else (⟨r.1, r.2.1, false⟩, r.2.2)

/-- The callback of lines 96-106. -/
def on_close (_status : ℤ) (w : World) : World :=
  let w1 := w.emit (.call_from_main_thread .graceful_shutdown)
  { w1 with shared := { w1.shared with g_system_progress_canceled := true } }

/-- The locals of lines 114-118. -/
structure Locals where
  ftotal : ℕ
  fdone : ℕ
  ptotal : ℕ
  pdone : ℕ
  text1 : ℕ
deriving DecidableEq

inductive Flow where
  | next
  | brk
deriving DecidableEq

/-- Lines 186-192. -/
def iteration_tail (tg : Target) (w : World) : World :=
  (if tg.show_overlay_message then w.emit .refresh_message_queue else w).emit (.wait_for 10000)

/-- One pass through the body of the polling loop, lines 123-192. -/
def poll_iteration (tg : Target) (l : Locals) (w : World) : Flow × Locals × World :=
  let text_new := w.shared.g_progr
  let ftotal_new := w.shared.g_progr_ftotal
  let fdone_new := w.shared.g_progr_fdone
  let ptotal_new := w.shared.g_progr_ptotal
  let pdone_new := w.shared.g_progr_pdone
  if l.ftotal ≠ ftotal_new ∨ l.fdone ≠ fdone_new ∨ l.ptotal ≠ ptotal_new ∨
      l.pdone ≠ pdone_new ∨ text_new ≠ l.text1 then
    let l1 : Locals := ⟨ftotal_new, fdone_new, ptotal_new, pdone_new, text_new⟩
    if text_new = 0 then (.brk, l1, w)
    else if tg.show_overlay_message then
      let w1 := if w.show_ppu_compilation_hint then w.emit .show_ppu_compile_notification else w
      (.next, l1, w1.emit (.wait_for 10000))
    else
      let msg := progr ftotal_new fdone_new ptotal_new pdone_new
      let v := displayed ftotal_new fdone_new ptotal_new pdone_new
      let w1 :=
        if tg.native_dlg then
          ((w.emit (.native_set_text text_new)).emit (.native_progress_bar_set_message msg)).emit
            (.native_progress_bar_set_value v)
        else if tg.dlg then w.emit (.call_from_main_thread (.dlg_update text_new msg v))
        else w
      (.next, l1, iteration_tail tg w1)
  else (.next, l, iteration_tail tg w)

inductive Exit where
  /-- the trace of the other threads ended while the loop was still running -/
  | running
  /-- left by the `break` of line 141 -/
  | label_cleared
  /-- left because the loop condition saw a stop request or an abort -/
  | stopped
deriving DecidableEq

/-- The polling loop of lines 121-193, one `Tick` of the other threads before each pass. -/
def poll_loop (tg : Target) : List Tick → Locals → World → Exit × Locals × World
  | [], l, w => (.running, l, w)
  | t :: ts, l, w =>
    let w1 := w.interfere t
    if stop_requested w1 then (.stopped, l, w1)
    else
      match poll_iteration tg l w1 with
      | (.brk, l1, w2) => (.label_cleared, l1, w2)
      | (.next, l1, w2) => poll_loop tg ts l1 w2

/-- Lines 200-214. -/
def close_target (tg : Target) (w : World) : World :=
  if tg.show_overlay_message then w
  else if tg.native_dlg then w.emit .native_close
  else if tg.dlg then w.emit (.call_from_main_thread .dlg_close)
  else w

/-- Subtraction of `u32` values. -/
def sub_u32 (a b : ℕ) : ℕ := (a + (2 ^ 32 - b % 2 ^ 32)) % 2 ^ 32

/-- Lines 216-221. -/
def cleanup (l : Locals) (w : World) : World :=
  { w with
    shared := { w.shared with
      g_progr_fdone := sub_u32 w.shared.g_progr_fdone l.fdone
      g_progr_pdone := sub_u32 w.shared.g_progr_pdone l.pdone
      g_progr_ftotal := sub_u32 w.shared.g_progr_ftotal l.ftotal
      g_progr_ptotal := sub_u32 w.shared.g_progr_ptotal l.ptotal }
    log := w.log ++ [.notify_all] }

/-- How one run of the body of the outer loop ended. -/
inductive Outcome where
  | finished
  | stopped
  | running
deriving DecidableEq

/-- Lines 61-221: one session, started with the label `text0`. `drain` is what the other
threads have stored when the polling loop has been left. The result carries the value
`native_dlg` has afterwards. -/
def session (h : Host) (text0 : ℕ) (ticks : List Tick) (drain : Tick) (native_dlg : Bool)
    (w : World) : Outcome × Bool × World :=
  let w0 : World := { w with shared := { w.shared with g_system_progress_canceled := false } }
  let sel := select_target h native_dlg text0 w0
  match poll_loop sel.1 ticks ⟨0, 0, 0, 0, text0⟩ sel.2 with
  | (.running, _, w1) => (.running, sel.1.native_dlg, w1)
  | (_, l, w1) =>
    let w2 := w1.interfere drain
    if stop_requested w2 then (.stopped, sel.1.native_dlg, w2)
    else (.finished, sel.1.native_dlg, cleanup l (close_target sel.1 w2))

inductive Start where
  | started (text0 : ℕ)
  | stopped
  | waiting
deriving DecidableEq

/-- Lines 40-59: wait for a label, one `Tick` of the other threads before each read. -/
def wait_start : List Tick → World → Start × World
  | [], w => (.waiting, w)
  | t :: ts, w =>
    let w1 := w.interfere t
    if stop_requested w1 then (.stopped, w1)
    else if w1.shared.g_progr ≠ 0 then (.started w1.shared.g_progr, w1)
    else wait_start ts (w1.emit (.wait_for 5000))

/-- What the other threads and the host do around one session. -/
structure SessionEnv where
  idle : List Tick
  host : Host
  ticks : List Tick
  drain : Tick
deriving DecidableEq

/-- The outer loop of lines 40-222. -/
def server_loop : List SessionEnv → Bool → World → Outcome × Bool × World
  | [], native_dlg, w => (.running, native_dlg, w)
  | s :: ss, native_dlg, w =>
    match wait_start s.idle w with
    | (.waiting, w1) => (.running, native_dlg, w1)
    | (.stopped, w1) => (.stopped, native_dlg, w1)
    | (.started text0, w1) =>
      match session s.host text0 s.ticks s.drain native_dlg w1 with
      | (.finished, nd, w2) => server_loop ss nd w2
      | r => r

/-- The whole of `progress_dialog_server::operator()`. `stopping_text` is the address of the
literal of line 226. -/
def server (stopping_text : ℕ) (envs : List SessionEnv) (w : World) : Outcome × World :=
  let w0 : World := { w with shared := { w.shared with g_system_progress_stopping := false } }
  match server_loop envs false w0 with
  | (.stopped, nd, w1) =>
    if nd && w1.shared.g_system_progress_stopping then
      (.stopped, (w1.emit (.native_set_text stopping_text)).emit .native_refresh)
    else (.stopped, w1)
  | (o, _, w1) => (o, w1)

/-- The destructor, lines 231-238. -/
def progress_dialog_server_dtor (sh : Shared) : Shared :=
  { sh with
    g_progr_ftotal := 0
    g_progr_fdone := 0
    g_progr_ptotal := 0
    g_progr_pdone := 0
    g_progr := 0 }

/-- Requests for a graceful shutdown in a log. -/
def shutdown_requests (log : List Event) : ℕ :=
  log.count (.call_from_main_thread .graceful_shutdown)


/-- Calls the polling loop can make for a given target. -/
def poll_event (tg : Target) : Event → Bool
  | .wait_for _ => true
  | .show_ppu_compile_notification => tg.show_overlay_message
  | .refresh_message_queue => tg.show_overlay_message
  | .native_set_text _ => !tg.show_overlay_message && tg.native_dlg
  | .native_progress_bar_set_message _ => !tg.show_overlay_message && tg.native_dlg
  | .native_progress_bar_set_value _ => !tg.show_overlay_message && tg.native_dlg
  | .call_from_main_thread (.dlg_update _ _ _) =>
    !tg.show_overlay_message && !tg.native_dlg && tg.dlg
  | _ => false

theorem roundHalfEven_le_of_lt (y : ℚ) (n : ℤ) (h : y < n + 1 / 2) : roundHalfEven y ≤ n := by
  have h1 : (⌊y⌋ : ℚ) ≤ y := Int.floor_le y
  unfold roundHalfEven
  split_ifs with a b c
  · have : (⌊y⌋ : ℚ) < ((n + 1 : ℤ) : ℚ) := by push_cast; linarith
    have := Int.cast_lt.mp this
    omega
  · have : (⌊y⌋ : ℚ) < ((n : ℤ) : ℚ) := by linarith
    have := Int.cast_lt.mp this
    omega
  · have : (⌊y⌋ : ℚ) < ((n + 1 : ℤ) : ℚ) := by push_cast; linarith
    have := Int.cast_lt.mp this
    omega
  · have : (⌊y⌋ : ℚ) < ((n : ℤ) : ℚ) := by linarith
    have := Int.cast_lt.mp this
    omega

theorem roundHalfEven_ge_of_gt (y : ℚ) (n : ℤ) (h : (n : ℚ) - 1 / 2 < y) : n ≤ roundHalfEven y := by
  have h1 : y < (⌊y⌋ : ℚ) + 1 := Int.lt_floor_add_one y
  unfold roundHalfEven
  split_ifs with a b c
  · have : ((n : ℤ) : ℚ) < ((⌊y⌋ + 1 : ℤ) : ℚ) := by push_cast; linarith
    have := Int.cast_lt.mp this
    omega
  · have : ((n : ℤ) : ℚ) < ((⌊y⌋ + 2 : ℤ) : ℚ) := by push_cast; linarith
    have := Int.cast_lt.mp this
    omega
  · have : ((n : ℤ) : ℚ) < ((⌊y⌋ + 1 : ℤ) : ℚ) := by push_cast; linarith
    have := Int.cast_lt.mp this
    omega
  · have : ((n : ℤ) : ℚ) < ((⌊y⌋ + 2 : ℤ) : ℚ) := by push_cast; linarith
    have := Int.cast_lt.mp this
    omega

theorem roundHalfEven_lower (y : ℚ) : y - 1 / 2 ≤ (roundHalfEven y : ℚ) := by
  have h1 : y < (⌊y⌋ : ℚ) + 1 := Int.lt_floor_add_one y
  unfold roundHalfEven
  split_ifs with a b c <;> push_cast <;> linarith

theorem roundHalfEven_upper (y : ℚ) : (roundHalfEven y : ℚ) ≤ y + 1 / 2 := by
  have h1 : (⌊y⌋ : ℚ) ≤ y := Int.floor_le y
  unfold roundHalfEven
  split_ifs with a b c <;> push_cast <;> linarith

theorem ulp_pos (p : ℕ) (x : ℚ) : 0 < ulp p x := by
  unfold ulp
  positivity

theorem two_zpow_log_le (x : ℚ) (hx : 0 < x) : (2 : ℚ) ^ Int.log 2 x ≤ x := by
  have := Int.zpow_log_le_self (R := ℚ) (b := 2) (by norm_num) hx
  simpa using this

theorem lt_two_zpow_log_succ (x : ℚ) : x < (2 : ℚ) ^ (Int.log 2 x + 1) := by
  have := Int.lt_zpow_succ_log_self (R := ℚ) (b := 2) (by norm_num) x
  simpa using this

/-- the unit in the last place is at most `x / 2 ^ (p - 1)` -/
theorem ulp_le (p : ℕ) (x : ℚ) (hx : 0 < x) : ulp p x * 2 ^ p ≤ 2 * x := by
  unfold ulp
  rw [abs_of_pos hx]
  have h := two_zpow_log_le x hx
  have e : (2 : ℚ) ^ (Int.log 2 x - ((p : ℤ) - 1)) * 2 ^ p = 2 * 2 ^ Int.log 2 x := by
    rw [← zpow_natCast, ← zpow_add₀ (by norm_num : (2 : ℚ) ≠ 0)]
    rw [show Int.log 2 x - ((p : ℤ) - 1) + (p : ℤ) = Int.log 2 x + 1 by ring]
    rw [zpow_add₀ (by norm_num : (2 : ℚ) ≠ 0)]
    ring
  rw [e]
  linarith

theorem lt_ulp (p : ℕ) (x : ℚ) (hx : 0 < x) : x < ulp p x * 2 ^ p := by
  unfold ulp
  rw [abs_of_pos hx]
  have h := lt_two_zpow_log_succ x
  have e : (2 : ℚ) ^ (Int.log 2 x - ((p : ℤ) - 1)) * 2 ^ p = 2 ^ (Int.log 2 x + 1) := by
    rw [← zpow_natCast, ← zpow_add₀ (by norm_num : (2 : ℚ) ≠ 0)]
    congr 1
    ring
  rw [e]
  exact h

theorem roundNearest_zero (p : ℕ) : roundNearest p 0 = 0 := by
  simp [roundNearest]

theorem roundNearest_le_grid (p : ℕ) (x : ℚ) (n : ℤ) (hx : 0 < x)
    (h : x < ((n : ℚ) + 1 / 2) * ulp p x) : roundNearest p x ≤ n * ulp p x := by
  have hu := ulp_pos p x
  unfold roundNearest
  rw [if_neg (ne_of_gt hx)]
  have : x / ulp p x < (n : ℚ) + 1 / 2 := by
    rw [div_lt_iff₀ hu]; exact h
  have := roundHalfEven_le_of_lt _ n this
  have : (roundHalfEven (x / ulp p x) : ℚ) ≤ (n : ℚ) := by exact_mod_cast this
  exact mul_le_mul_of_nonneg_right this hu.le

theorem roundNearest_ge_grid (p : ℕ) (x : ℚ) (n : ℤ) (hx : 0 < x)
    (h : ((n : ℚ) - 1 / 2) * ulp p x < x) : n * ulp p x ≤ roundNearest p x := by
  have hu := ulp_pos p x
  unfold roundNearest
  rw [if_neg (ne_of_gt hx)]
  have : (n : ℚ) - 1 / 2 < x / ulp p x := by
    rw [lt_div_iff₀ hu]; exact h
  have := roundHalfEven_ge_of_gt _ n this
  have : (n : ℚ) ≤ (roundHalfEven (x / ulp p x) : ℚ) := by exact_mod_cast this
  exact mul_le_mul_of_nonneg_right this hu.le

theorem roundNearest_lower (p : ℕ) (x : ℚ) (hx : 0 ≤ x) :
    x * (1 - 1 / 2 ^ p) ≤ roundNearest p x := by
  rcases hx.eq_or_lt with h0 | hpos
  · subst h0; simp [roundNearest]
  have hu := ulp_pos p x
  have hule := ulp_le p x hpos
  unfold roundNearest
  rw [if_neg (ne_of_gt hpos)]
  have h1 := roundHalfEven_lower (x / ulp p x)
  have h2 : (x / ulp p x - 1 / 2) * ulp p x ≤ roundHalfEven (x / ulp p x) * ulp p x :=
    mul_le_mul_of_nonneg_right h1 hu.le
  have h3 : (x / ulp p x - 1 / 2) * ulp p x = x - ulp p x / 2 := by
    field_simp
    ring
  have hp : (0 : ℚ) < 2 ^ p := by positivity
  have h4 : ulp p x / 2 ≤ x / 2 ^ p := by
    rw [le_div_iff₀ hp]; linarith
  have h5 : x * (1 - 1 / 2 ^ p) = x - x / 2 ^ p := by ring
  rw [h5]; linarith

theorem roundNearest_upper (p : ℕ) (x : ℚ) (hx : 0 ≤ x) :
    roundNearest p x ≤ x * (1 + 1 / 2 ^ p) := by
  rcases hx.eq_or_lt with h0 | hpos
  · subst h0; simp [roundNearest]
  have hu := ulp_pos p x
  have hule := ulp_le p x hpos
  unfold roundNearest
  rw [if_neg (ne_of_gt hpos)]
  have h1 := roundHalfEven_upper (x / ulp p x)
  have h2 : roundHalfEven (x / ulp p x) * ulp p x ≤ (x / ulp p x + 1 / 2) * ulp p x :=
    mul_le_mul_of_nonneg_right h1 hu.le
  have h3 : (x / ulp p x + 1 / 2) * ulp p x = x + ulp p x / 2 := by
    field_simp
    ring
  have hp : (0 : ℚ) < 2 ^ p := by positivity
  have h4 : ulp p x / 2 ≤ x / 2 ^ p := by
    rw [le_div_iff₀ hp]; linarith
  have h5 : x * (1 + 1 / 2 ^ p) = x + x / 2 ^ p := by ring
  rw [h5]; linarith


theorem log_lt_of_lt_pow (x : ℚ) (hx : 0 < x) (m : ℕ) (h : x < 2 ^ m) : Int.log 2 x < m := by
  have := (Int.lt_zpow_iff_log_lt (R := ℚ) (b := 2) (by norm_num) (x := (m : ℤ)) hx).mp
    (by simpa using h)
  exact this

theorem grid_dyadic (p : ℕ) (x : ℚ) (hx : 0 < x) (a j : ℕ) (h : Int.log 2 x + j < p) :
    ∃ n : ℤ, (n : ℚ) * ulp p x = a / 2 ^ j := by
  have hm : (((p : ℤ) - 1 - Int.log 2 x - j).toNat : ℤ) = (p : ℤ) - 1 - Int.log 2 x - j :=
    Int.toNat_of_nonneg (by omega)
  refine ⟨(a : ℤ) * 2 ^ ((p : ℤ) - 1 - Int.log 2 x - j).toNat, ?_⟩
  unfold ulp
  rw [abs_of_pos hx]
  push_cast
  rw [mul_assoc, ← zpow_natCast, hm, ← zpow_add₀ (by norm_num : (2 : ℚ) ≠ 0)]
  rw [show (p : ℤ) - 1 - Int.log 2 x - j + (Int.log 2 x - ((p : ℤ) - 1)) = -(j : ℤ) by ring]
  rw [zpow_neg, zpow_natCast]
  ring

/-- rounding never crosses a dyadic number representable at the precision -/
theorem roundNearest_le_dyadic (p : ℕ) (x : ℚ) (hx : 0 < x) (a j : ℕ)
    (h : Int.log 2 x + j < p) (hle : x ≤ a / 2 ^ j) : roundNearest p x ≤ a / 2 ^ j := by
  obtain ⟨n, hn⟩ := grid_dyadic p x hx a j h
  rw [← hn]
  apply roundNearest_le_grid p x n hx
  have hu := ulp_pos p x
  have : ((n : ℚ) + 1 / 2) * ulp p x = n * ulp p x + ulp p x / 2 := by ring
  rw [this, hn]
  linarith

theorem roundNearest_ge_dyadic (p : ℕ) (x : ℚ) (hx : 0 < x) (a j : ℕ)
    (h : Int.log 2 x + j < p) (hle : (a : ℚ) / 2 ^ j ≤ x) : (a : ℚ) / 2 ^ j ≤ roundNearest p x := by
  obtain ⟨n, hn⟩ := grid_dyadic p x hx a j h
  rw [← hn]
  apply roundNearest_ge_grid p x n hx
  have hu := ulp_pos p x
  have : ((n : ℚ) - 1 / 2) * ulp p x = n * ulp p x - ulp p x / 2 := by ring
  rw [this, hn]
  linarith

/-- a value within relative distance `2 ^ -(p + 1)` below a natural number rounds up to it -/
theorem roundNearest_ge_nat_of_near (p : ℕ) (x : ℚ) (hx : 0 < x) (k : ℕ)
    (h : Int.log 2 x < p) (hk : (k : ℚ) - x ≤ x / 2 ^ (p + 1)) : (k : ℚ) ≤ roundNearest p x := by
  obtain ⟨n, hn⟩ := grid_dyadic p x hx k 0 (by simpa using h)
  simp only [pow_zero, div_one] at hn
  rw [← hn]
  apply roundNearest_ge_grid p x n hx
  have hu := ulp_pos p x
  have hlt := lt_ulp p x hx
  have : ((n : ℚ) - 1 / 2) * ulp p x = n * ulp p x - ulp p x / 2 := by ring
  rw [this, hn]
  have hp : (0 : ℚ) < 2 ^ (p + 1) := by positivity
  have h2 : x / 2 ^ (p + 1) < ulp p x / 2 := by
    rw [div_lt_iff₀ hp, pow_succ]
    linarith
  linarith

theorem roundNearest_natCast (p : ℕ) (k : ℕ) (h : k < 2 ^ p) : roundNearest p (k : ℚ) = k := by
  rcases Nat.eq_zero_or_pos k with h0 | hpos
  · subst h0; simp [roundNearest]
  have hx : (0 : ℚ) < k := by exact_mod_cast hpos
  have hl : Int.log 2 (k : ℚ) < p := log_lt_of_lt_pow _ hx p (by exact_mod_cast h)
  have h1 := roundNearest_le_dyadic p k hx k 0 (by simpa using hl) (by simp)
  have h2 := roundNearest_ge_dyadic p k hx k 0 (by simpa using hl) (by simp)
  simp only [pow_zero, div_one] at h1 h2
  exact le_antisymm h1 h2


theorem roundNearest_nonneg (p : ℕ) (x : ℚ) (hx : 0 ≤ x) : 0 ≤ roundNearest p x := by
  have h := roundNearest_lower p x hx
  have hp : (1 : ℚ) / 2 ^ p ≤ 1 := by
    rw [div_le_one (by positivity)]
    exact one_le_pow₀ (by norm_num)
  have : 0 ≤ x * (1 - 1 / 2 ^ p) := mul_nonneg hx (by linarith)
  linarith

theorem quotient_bounds (dn tt : ℕ) (ht : 1 ≤ tt) :
    0 ≤ f64 (f64 (f64 dn * 100) / f64 tt) ∧
    (dn * 100 : ℚ) * (1 - 1 / 2 ^ 53) ^ 3
      ≤ f64 (f64 (f64 dn * 100) / f64 tt) * (tt * (1 + 1 / 2 ^ 53)) ∧
    f64 (f64 (f64 dn * 100) / f64 tt) * (tt * (1 - 1 / 2 ^ 53))
      ≤ (dn * 100 : ℚ) * (1 + 1 / 2 ^ 53) ^ 3 := by
  have hdn : (0 : ℚ) ≤ dn := Nat.cast_nonneg dn
  have htt : (1 : ℚ) ≤ tt := by exact_mod_cast ht
  have hD0 : 0 ≤ f64 dn := roundNearest_nonneg 53 _ hdn
  have hD1 := roundNearest_lower 53 (dn : ℚ) hdn
  have hD2 := roundNearest_upper 53 (dn : ℚ) hdn
  have hN0 : 0 ≤ f64 (f64 dn * 100) := roundNearest_nonneg 53 _ (by positivity)
  have hN1 := roundNearest_lower 53 (f64 dn * 100) (by positivity)
  have hN2 := roundNearest_upper 53 (f64 dn * 100) (by positivity)
  have hT1 := roundNearest_lower 53 (tt : ℚ) (by linarith)
  have hT2 := roundNearest_upper 53 (tt : ℚ) (by linarith)
  have hTpos : 0 < f64 tt := by
    have : (0 : ℚ) < tt * (1 - 1 / 2 ^ 53) := by
      apply mul_pos (by linarith)
      norm_num
    exact lt_of_lt_of_le this hT1
  have hQ0 : 0 ≤ f64 (f64 dn * 100) / f64 tt := div_nonneg hN0 hTpos.le
  have hd0 := roundNearest_nonneg 53 _ hQ0
  have hd1 := roundNearest_lower 53 _ hQ0
  have hd2 := roundNearest_upper 53 _ hQ0
  change _ ≤ f64 (f64 (f64 dn * 100) / f64 tt) at hd1
  change f64 (f64 (f64 dn * 100) / f64 tt) ≤ _ at hd2
  change 0 ≤ f64 (f64 (f64 dn * 100) / f64 tt) at hd0
  change _ ≤ f64 (f64 dn * 100) at hN1
  change f64 (f64 dn * 100) ≤ _ at hN2
  change _ ≤ f64 dn at hD1
  change f64 dn ≤ _ at hD2
  change _ ≤ f64 tt at hT1
  change f64 tt ≤ _ at hT2
  generalize f64 (f64 (f64 dn * 100) / f64 tt) = d at *
  generalize hQ : f64 (f64 dn * 100) / f64 tt = Q at *
  generalize f64 (f64 dn * 100) = N at *
  generalize f64 dn = D at *
  generalize f64 tt = T at *
  have hNQ : N = Q * T := by rw [← hQ]; field_simp
  have e1 : (0 : ℚ) < 1 - 1 / 2 ^ 53 := by norm_num
  have e2 : (0 : ℚ) < 1 + 1 / 2 ^ 53 := by norm_num
  refine ⟨hd0, ?_, ?_⟩
  · -- lower bound
    have a1 : (dn : ℚ) * 100 * (1 - 1 / 2 ^ 53) ^ 2 ≤ N := by
      have : (dn : ℚ) * (1 - 1 / 2 ^ 53) * 100 * (1 - 1 / 2 ^ 53) ≤ D * 100 * (1 - 1 / 2 ^ 53) := by
        apply mul_le_mul_of_nonneg_right _ e1.le
        apply mul_le_mul_of_nonneg_right hD1 (by norm_num)
      calc (dn : ℚ) * 100 * (1 - 1 / 2 ^ 53) ^ 2
          = (dn : ℚ) * (1 - 1 / 2 ^ 53) * 100 * (1 - 1 / 2 ^ 53) := by ring
        _ ≤ D * 100 * (1 - 1 / 2 ^ 53) := this
        _ ≤ N := hN1
    have a2 : N * (1 - 1 / 2 ^ 53) ≤ d * T := by
      rw [hNQ]
      calc Q * T * (1 - 1 / 2 ^ 53) = Q * (1 - 1 / 2 ^ 53) * T := by ring
        _ ≤ d * T := mul_le_mul_of_nonneg_right hd1 hTpos.le
    have a3 : d * T ≤ d * (tt * (1 + 1 / 2 ^ 53)) := mul_le_mul_of_nonneg_left hT2 hd0
    calc (dn : ℚ) * 100 * (1 - 1 / 2 ^ 53) ^ 3
        = (dn : ℚ) * 100 * (1 - 1 / 2 ^ 53) ^ 2 * (1 - 1 / 2 ^ 53) := by ring
      _ ≤ N * (1 - 1 / 2 ^ 53) := mul_le_mul_of_nonneg_right a1 e1.le
      _ ≤ d * T := a2
      _ ≤ _ := a3
  · have a1 : N ≤ (dn : ℚ) * 100 * (1 + 1 / 2 ^ 53) ^ 2 := by
      have : D * 100 * (1 + 1 / 2 ^ 53) ≤ (dn : ℚ) * (1 + 1 / 2 ^ 53) * 100 * (1 + 1 / 2 ^ 53) := by
        apply mul_le_mul_of_nonneg_right _ e2.le
        apply mul_le_mul_of_nonneg_right hD2 (by norm_num)
      calc N ≤ D * 100 * (1 + 1 / 2 ^ 53) := hN2
        _ ≤ (dn : ℚ) * (1 + 1 / 2 ^ 53) * 100 * (1 + 1 / 2 ^ 53) := this
        _ = _ := by ring
    have a2 : d * T ≤ N * (1 + 1 / 2 ^ 53) := by
      rw [hNQ]
      calc d * T ≤ Q * (1 + 1 / 2 ^ 53) * T := mul_le_mul_of_nonneg_right hd2 hTpos.le
        _ = Q * T * (1 + 1 / 2 ^ 53) := by ring
    have a3 : d * (tt * (1 - 1 / 2 ^ 53)) ≤ d * T := mul_le_mul_of_nonneg_left hT1 hd0
    calc d * (tt * (1 - 1 / 2 ^ 53)) ≤ d * T := a3
      _ ≤ N * (1 + 1 / 2 ^ 53) := a2
      _ ≤ (dn : ℚ) * 100 * (1 + 1 / 2 ^ 53) ^ 2 * (1 + 1 / 2 ^ 53) :=
          mul_le_mul_of_nonneg_right a1 e2.le
      _ = _ := by ring


theorem total_eq (ftotal ptotal : ℕ) (h1 : ftotal < 2 ^ 32) (h2 : ptotal < 2 ^ 32) :
    total ftotal ptotal = max ptotal 1 * max ftotal 1 := by
  unfold total
  apply Nat.mod_eq_of_lt
  have a : max ptotal 1 < 2 ^ 32 := max_lt h2 (by norm_num)
  have b : max ftotal 1 < 2 ^ 32 := max_lt h1 (by norm_num)
  calc max ptotal 1 * max ftotal 1 < 2 ^ 32 * 2 ^ 32 := Nat.mul_lt_mul_of_lt_of_le a b.le (by norm_num)
    _ = 2 ^ 64 := by norm_num

theorem total_pos (ftotal ptotal : ℕ) (h1 : ftotal < 2 ^ 32) (h2 : ptotal < 2 ^ 32) :
    1 ≤ total ftotal ptotal := by
  rw [total_eq ftotal ptotal h1 h2]
  exact Nat.one_le_iff_ne_zero.mpr (Nat.mul_ne_zero (by omega) (by omega))

theorem narrowed_le_hundred (d : ℚ) (hd : 0 ≤ d) : f32 (min d 100) ≤ 100 := by
  rcases hd.eq_or_lt with h0 | hpos
  · subst h0; simp [f32, roundNearest]
  have hm : 0 < min d 100 := lt_min hpos (by norm_num)
  have hl : Int.log 2 (min d 100) < (7 : ℕ) :=
    log_lt_of_lt_pow _ hm 7 (lt_of_le_of_lt (min_le_right _ _) (by norm_num))
  have := roundNearest_le_dyadic 24 (min d 100) hm 100 0 (by push_cast at hl ⊢; omega)
    (by simp)
  simpa [f32] using this

theorem floor_bounds (dn tt : ℕ) (ht : 1 ≤ tt) :
    min (dn * 100 / tt) 100 ≤ ⌊f32 (min (f64 (f64 (f64 dn * 100) / f64 tt)) 100)⌋.toNat ∧
    ⌊f32 (min (f64 (f64 (f64 dn * 100) / f64 tt)) 100)⌋.toNat ≤ min (dn * 100 / tt) 100 + 1 ∧
    ⌊f32 (min (f64 (f64 (f64 dn * 100) / f64 tt)) 100)⌋.toNat ≤ 100 := by
  obtain ⟨hd0, hlo, hhi⟩ := quotient_bounds dn tt ht
  generalize f64 (f64 (f64 dn * 100) / f64 tt) = d at *
  have htt : (0 : ℚ) < tt := by exact_mod_cast ht
  have hv100 := narrowed_le_hundred d hd0
  have hfl100 : ⌊f32 (min d 100)⌋ ≤ 100 := by
    have : ⌊f32 (min d 100)⌋ ≤ ⌊(100 : ℚ)⌋ := Int.floor_le_floor hv100
    simpa using this
  have hk100 : min (dn * 100 / tt) 100 ≤ 100 := min_le_right _ _
  have hkmul : min (dn * 100 / tt) 100 * tt ≤ dn * 100 :=
    le_trans (Nat.mul_le_mul_right tt (min_le_left _ _)) (Nat.div_mul_le_self _ _)
  have hknext : min (dn * 100 / tt) 100 < 100 → dn * 100 < (min (dn * 100 / tt) 100 + 1) * tt := by
    intro hlt
    have hq : dn * 100 / tt < 100 := by
      by_contra hcon
      rw [min_eq_right (by omega)] at hlt
      omega
    rw [min_eq_left hq.le]
    exact (Nat.div_lt_iff_lt_mul ht).mp (Nat.lt_succ_self _)
  generalize min (dn * 100 / tt) 100 = k at *
  refine ⟨?_, ?_, by omega⟩
  · -- the floor never falls below the exact percentage
    rcases Nat.eq_zero_or_pos k with h0 | hpos
    · omega
    have hkq : (k : ℚ) * tt ≤ dn * 100 := by exact_mod_cast hkmul
    have hk1 : (1 : ℚ) ≤ k := by exact_mod_cast hpos
    have hkq100 : (k : ℚ) ≤ 100 := by exact_mod_cast hk100
    have h1 : (k : ℚ) * (1 - 1 / 2 ^ 53) ^ 3 * (tt : ℚ) ≤ d * (1 + 1 / 2 ^ 53) * (tt : ℚ) := by
      calc (k : ℚ) * (1 - 1 / 2 ^ 53) ^ 3 * (tt : ℚ)
          = (k : ℚ) * (tt : ℚ) * (1 - 1 / 2 ^ 53) ^ 3 := by ring
        _ ≤ (dn : ℚ) * 100 * (1 - 1 / 2 ^ 53) ^ 3 :=
            mul_le_mul_of_nonneg_right hkq (by norm_num)
        _ ≤ d * ((tt : ℚ) * (1 + 1 / 2 ^ 53)) := hlo
        _ = d * (1 + 1 / 2 ^ 53) * (tt : ℚ) := by ring
    have h2 : (k : ℚ) * (1 - 1 / 2 ^ 53) ^ 3 ≤ d * (1 + 1 / 2 ^ 53) :=
      le_of_mul_le_mul_right h1 htt
    norm_num at h2
    have hdpos : 0 < d := by linarith
    have hm : 0 < min d 100 := lt_min hdpos (by norm_num)
    have hl : Int.log 2 (min d 100) < (24 : ℕ) :=
      log_lt_of_lt_pow _ hm 24 (lt_of_le_of_lt (min_le_right _ _) (by norm_num))
    have hnear : (k : ℚ) - min d 100 ≤ min d 100 / 2 ^ (24 + 1) := by
      rcases min_choice d 100 with e | e <;> rw [e] <;> norm_num <;> linarith
    have hv := roundNearest_ge_nat_of_near 24 (min d 100) hm k hl hnear
    have : (k : ℤ) ≤ ⌊f32 (min d 100)⌋ := by
      rw [Int.le_floor]; exact_mod_cast hv
    omega
  · -- and never exceeds it by more than one
    rcases Nat.lt_or_ge k 100 with hlt | hge
    · have hnat := hknext hlt
      have hq : (dn : ℚ) * 100 ≤ ((k : ℚ) + 1) * tt := by
        have : dn * 100 ≤ (k + 1) * tt := hnat.le
        exact_mod_cast this
      have hkq : (k : ℚ) + 1 ≤ 100 := by
        have : k + 1 ≤ 100 := hlt
        exact_mod_cast this
      have hk0 : (0 : ℚ) ≤ k := Nat.cast_nonneg k
      have h1 : d * (1 - 1 / 2 ^ 53) * (tt : ℚ)
          ≤ ((k : ℚ) + 1) * (1 + 1 / 2 ^ 53) ^ 3 * (tt : ℚ) := by
        calc d * (1 - 1 / 2 ^ 53) * (tt : ℚ) = d * ((tt : ℚ) * (1 - 1 / 2 ^ 53)) := by ring
          _ ≤ (dn : ℚ) * 100 * (1 + 1 / 2 ^ 53) ^ 3 := hhi
          _ ≤ ((k : ℚ) + 1) * (tt : ℚ) * (1 + 1 / 2 ^ 53) ^ 3 :=
              mul_le_mul_of_nonneg_right hq (by norm_num)
          _ = ((k : ℚ) + 1) * (1 + 1 / 2 ^ 53) ^ 3 * (tt : ℚ) := by ring
      have h2 : d * (1 - 1 / 2 ^ 53) ≤ ((k : ℚ) + 1) * (1 + 1 / 2 ^ 53) ^ 3 :=
        le_of_mul_le_mul_right h1 htt
      norm_num at h2
      have hd32 : d ≤ (k : ℚ) + 3 / 2 := by linarith
      have hv : f32 (min d 100) ≤ (k : ℚ) + 3 / 2 := by
        rcases hd0.eq_or_lt with h0 | hdpos
        · rw [← h0]; simp [f32, roundNearest]; linarith
        have hm : 0 < min d 100 := lt_min hdpos (by norm_num)
        have hl : Int.log 2 (min d 100) < (7 : ℕ) :=
          log_lt_of_lt_pow _ hm 7 (lt_of_le_of_lt (min_le_right _ _) (by norm_num))
        have := roundNearest_le_dyadic 24 (min d 100) hm (2 * k + 3) 1
          (by push_cast at hl ⊢; omega)
          (by push_cast; linarith [min_le_left d 100])
        have e : (((2 * k + 3 : ℕ) : ℚ)) / 2 ^ 1 = (k : ℚ) + 3 / 2 := by push_cast; ring
        rw [e] at this
        exact this
      have : ⌊f32 (min d 100)⌋ < (k : ℤ) + 2 := by
        rw [Int.floor_lt]; push_cast; linarith
      omega
    · omega


/-- a value within relative distance `2 ^ -(p + 1)` above a natural number rounds down to it -/
theorem roundNearest_le_nat_of_near (p : ℕ) (x : ℚ) (hx : 0 < x) (k : ℕ)
    (h : Int.log 2 x < p) (hk : x - (k : ℚ) ≤ x / 2 ^ (p + 1)) : roundNearest p x ≤ (k : ℚ) := by
  obtain ⟨n, hn⟩ := grid_dyadic p x hx k 0 (by simpa using h)
  simp only [pow_zero, div_one] at hn
  rw [← hn]
  apply roundNearest_le_grid p x n hx
  have hu := ulp_pos p x
  have hlt := lt_ulp p x hx
  have : ((n : ℚ) + 1 / 2) * ulp p x = n * ulp p x + ulp p x / 2 := by ring
  rw [this, hn]
  have hp : (0 : ℚ) < 2 ^ (p + 1) := by positivity
  have h2 : x / 2 ^ (p + 1) < ulp p x / 2 := by
    rw [div_lt_iff₀ hp, pow_succ]
    linarith
  linarith

theorem floor_exact_of_dvd (dn tt q : ℕ) (ht : 1 ≤ tt) (h : dn * 100 = q * tt) :
    ⌊f32 (min (f64 (f64 (f64 dn * 100) / f64 tt)) 100)⌋.toNat = min q 100 := by
  obtain ⟨hlo, -, h100⟩ := floor_bounds dn tt ht
  have hq : dn * 100 / tt = q := by
    rw [h]; exact Nat.mul_div_cancel q ht
  rw [hq] at hlo
  rcases Nat.lt_or_ge q 100 with hlt | hge
  · rw [min_eq_left hlt.le] at hlo ⊢
    obtain ⟨hd0, -, hhi⟩ := quotient_bounds dn tt ht
    generalize f64 (f64 (f64 dn * 100) / f64 tt) = d at *
    have htt : (0 : ℚ) < tt := by exact_mod_cast ht
    have hqq : (dn : ℚ) * 100 = (q : ℚ) * tt := by exact_mod_cast h
    have hq100 : (q : ℚ) ≤ 100 := by exact_mod_cast hlt.le
    have hq0 : (0 : ℚ) ≤ q := Nat.cast_nonneg q
    have h1 : d * (1 - 1 / 2 ^ 53) * (tt : ℚ) ≤ (q : ℚ) * (1 + 1 / 2 ^ 53) ^ 3 * (tt : ℚ) := by
      calc d * (1 - 1 / 2 ^ 53) * (tt : ℚ) = d * ((tt : ℚ) * (1 - 1 / 2 ^ 53)) := by ring
        _ ≤ (dn : ℚ) * 100 * (1 + 1 / 2 ^ 53) ^ 3 := hhi
        _ = (q : ℚ) * (1 + 1 / 2 ^ 53) ^ 3 * (tt : ℚ) := by rw [hqq]; ring
    have h2 : d * (1 - 1 / 2 ^ 53) ≤ (q : ℚ) * (1 + 1 / 2 ^ 53) ^ 3 :=
      le_of_mul_le_mul_right h1 htt
    norm_num at h2
    have hd12 : d ≤ (q : ℚ) + 1 / 2 := by linarith
    have hv : f32 (min d 100) ≤ (q : ℚ) + 1 / 2 := by
      rcases hd0.eq_or_lt with h0 | hdpos
      · rw [← h0]; simp [f32, roundNearest]; linarith
      have hm : 0 < min d 100 := lt_min hdpos (by norm_num)
      have hl : Int.log 2 (min d 100) < (7 : ℕ) :=
        log_lt_of_lt_pow _ hm 7 (lt_of_le_of_lt (min_le_right _ _) (by norm_num))
      have := roundNearest_le_dyadic 24 (min d 100) hm (2 * q + 1) 1
        (by push_cast at hl ⊢; omega)
        (by push_cast; linarith [min_le_left d 100])
      have e : (((2 * q + 1 : ℕ) : ℚ)) / 2 ^ 1 = (q : ℚ) + 1 / 2 := by push_cast; ring
      rw [e] at this
      exact this
    have : ⌊f32 (min d 100)⌋ < (q : ℤ) + 1 := by
      rw [Int.floor_lt]; push_cast; linarith
    omega
  · rw [min_eq_right hge] at hlo ⊢
    omega

theorem displayed_of_pdone_zero (ftotal fdone ptotal : ℕ) : displayed ftotal fdone ptotal 0 = 0 := by
  simp [displayed, value, done, f64, f32, roundNearest]

theorem value_nonneg (ftotal fdone ptotal pdone : ℕ) (h1 : ftotal < 2 ^ 32)
    (h2 : ptotal < 2 ^ 32) : 0 ≤ value ftotal fdone ptotal pdone := by
  obtain ⟨hd0, -, -⟩ := quotient_bounds (done fdone pdone) (total ftotal ptotal)
    (total_pos ftotal ptotal h1 h2)
  exact roundNearest_nonneg 24 _ (le_min hd0 (by norm_num))

/-- Claim C2. For `u32` inputs with `fdone ≤ ftotal` and `pdone ≤ ptotal` the integer
percentage `floor(value)` lies in the closed range from 0 to 100, and it is the number the
progress bar receives. -/
theorem displayed_in_range (ftotal fdone ptotal pdone : ℕ)
    (h1 : ftotal < 2 ^ 32) (_h2 : fdone < 2 ^ 32) (h3 : ptotal < 2 ^ 32) (_h4 : pdone < 2 ^ 32)
    (_hf : fdone ≤ ftotal) (_hp : pdone ≤ ptotal) :
    0 ≤ ⌊value ftotal fdone ptotal pdone⌋ ∧ ⌊value ftotal fdone ptotal pdone⌋ ≤ 100 ∧
    (displayed ftotal fdone ptotal pdone : ℤ) = ⌊value ftotal fdone ptotal pdone⌋ := by
  have hv0 := value_nonneg ftotal fdone ptotal pdone h1 h3
  have hfl0 : 0 ≤ ⌊value ftotal fdone ptotal pdone⌋ := Int.floor_nonneg.mpr hv0
  obtain ⟨-, -, b3⟩ := floor_bounds (done fdone pdone) (total ftotal ptotal)
    (total_pos ftotal ptotal h1 h3)
  change displayed ftotal fdone ptotal pdone ≤ 100 at b3
  have hd : (displayed ftotal fdone ptotal pdone : ℤ) = ⌊value ftotal fdone ptotal pdone⌋ := by
    unfold displayed
    exact Int.toNat_of_nonneg hfl0
  refine ⟨hfl0, ?_, hd⟩
  rw [← hd]
  exact_mod_cast b3

theorem displayed_in_range_witness :
    0 ≤ ⌊value 10 5 4 2⌋ ∧ ⌊value 10 5 4 2⌋ ≤ 100 ∧ (displayed 10 5 4 2 : ℤ) = ⌊value 10 5 4 2⌋ :=
  displayed_in_range 10 5 4 2 (by norm_num) (by norm_num) (by norm_num) (by norm_num)
    (by norm_num) (by norm_num)

/-- Claim C3 fails as stated: for (ftotal, fdone, ptotal, pdone) = (10, 5, 0, 0) line 158
multiplies by `pdone = 0`, so `done` is not 5 and the percentage is not 50. -/
theorem file_axis_alone_not_fifty :
    ¬ (total 10 0 = 10 ∧ done 5 0 = 5 ∧ displayed 10 5 0 0 = 50) := by
  rintro ⟨-, h, -⟩
  revert h
  decide

/-- Claim C3 as amended. For (ftotal, fdone, ptotal, pdone) = (10, 5, 0, 0) the computation
yields total = 10, done = 0 and a displayed percentage of 0: `pdone` is not clamped to 1, so
the file axis alone reports no progress while the module axis has reported nothing. -/
theorem file_axis_alone_zero :
    total 10 0 = 10 ∧ done 5 0 = 0 ∧ displayed 10 5 0 0 = 0 :=
  ⟨by decide, by decide, displayed_of_pdone_zero 10 5 0⟩


/-! ## The server loop -/

/-- Claim C4. The status string is "Progress:", then " file <fdone> of <ftotal>" exactly when
`ftotal` is not 0, then "," exactly when neither `ftotal` nor `ptotal` is 0, then
" module <pdone> of <ptotal>" exactly when `ptotal` is not 0, the numbers in decimal;
(3, 1, 2, 0) and (3, 1, 0, 0) give the two strings of the specification. -/
theorem progr_format (ftotal fdone ptotal pdone : ℕ) :
    progr ftotal fdone ptotal pdone
      = "Progress:"
        ++ (if ftotal ≠ 0 then " file " ++ Nat.repr fdone ++ " of " ++ Nat.repr ftotal else "")
        ++ (if ftotal ≠ 0 ∧ ptotal ≠ 0 then "," else "")
        ++ (if ptotal ≠ 0 then " module " ++ Nat.repr pdone ++ " of " ++ Nat.repr ptotal else "")
    ∧ progr 3 1 2 0 = "Progress: file 1 of 3, module 0 of 2"
    ∧ progr 3 1 0 0 = "Progress: file 1 of 3" := by
  refine ⟨?_, by decide, by decide⟩
  unfold progr fmt_u
  by_cases h1 : ftotal = 0 <;> by_cases h2 : ptotal = 0 <;>
    simp [h1, h2, String.append_assoc, toString]

theorem sub_u32_int (a b : ℕ) : ((sub_u32 a b : ℕ) : ℤ) = ((a : ℤ) - (b : ℤ)) % 2 ^ 32 := by
  unfold sub_u32
  push_cast
  omega

theorem poll_iteration_brk (tg : Target) (l l1 : Locals) (w w1 : World)
    (h : poll_iteration tg l w = (.brk, l1, w1)) :
    w.shared.g_progr = 0 ∧ w1 = w ∧
    l1 = ⟨w.shared.g_progr_ftotal, w.shared.g_progr_fdone, w.shared.g_progr_ptotal,
      w.shared.g_progr_pdone, 0⟩ := by
  unfold poll_iteration at h
  simp only at h
  split_ifs at h with c1 c2 c3 <;> simp only [Prod.mk.injEq, reduceCtorEq, false_and] at h
  obtain ⟨-, hl, hw⟩ := h
  refine ⟨c2, hw.symm, ?_⟩
  rw [← hl, c2]

theorem poll_loop_label_cleared (tg : Target) (ticks : List Tick) :
    ∀ (l0 : Locals) (w0 : World) (l : Locals) (w1 : World),
      poll_loop tg ticks l0 w0 = (.label_cleared, l, w1) →
      ∃ pre t post, ticks = pre ++ t :: post ∧ t.g_progr = 0 ∧
        t.g_system_progress_stopping = false ∧ t.aborting = false ∧
        l = ⟨t.g_progr_ftotal, t.g_progr_fdone, t.g_progr_ptotal, t.g_progr_pdone, 0⟩ := by
  induction ticks with
  | nil =>
    intro l0 w0 l w1 h
    simp [poll_loop] at h
  | cons t ts ih =>
    intro l0 w0 l w1 h
    unfold poll_loop at h
    simp only at h
    split_ifs at h with hs
    · simp at h
    · split at h
      · rename_i l2 w2 hit
        obtain ⟨hg, -, hl⟩ := poll_iteration_brk tg l0 l2 (w0.interfere t) w2 hit
        simp only [Prod.mk.injEq, true_and] at h
        have hs2 : t.g_system_progress_stopping = false ∧ t.aborting = false := by
          simpa [stop_requested, World.interfere] using hs
        refine ⟨[], t, ts, rfl, hg, hs2.1, hs2.2, ?_⟩
        rw [← h.1, hl]; rfl
      · rename_i l2 w2 hit
        obtain ⟨pre, t1, post, e, r⟩ := ih l2 w2 l w1 h
        exact ⟨t :: pre, t1, post, by rw [e]; rfl, r⟩

/-- Claim C5. When the polling loop is left by the `break` of line 141, the label was read
empty from some state `t` of the other threads with no stop or abort pending, the locals hold
the counters read from `t` (the last snapshot, nothing is read after it), and whatever the
shared state `w` is when cleanup runs, cleanup leaves every counter at its value in `w` minus
the snapshot value modulo 2^32; a `unit_total` that another session raised by 5 after the
snapshot ends at 5; label, cancel flag and stop flag are untouched. A session whose polling
loop ended this way, with no stop or abort pending afterwards, ends with exactly this
cleanup. -/
theorem cleanup_decrements (tg : Target) (ticks : List Tick) (l0 l : Locals) (w0 w1 : World)
    (h : poll_loop tg ticks l0 w0 = (.label_cleared, l, w1)) (w : World) :
    (∃ pre t post, ticks = pre ++ t :: post ∧ t.g_progr = 0 ∧
      t.g_system_progress_stopping = false ∧ t.aborting = false ∧
      l.ftotal = t.g_progr_ftotal ∧ l.fdone = t.g_progr_fdone ∧
      l.ptotal = t.g_progr_ptotal ∧ l.pdone = t.g_progr_pdone) ∧
    (((cleanup l w).shared.g_progr_ftotal : ℕ) : ℤ)
      = ((w.shared.g_progr_ftotal : ℤ) - (l.ftotal : ℤ)) % 2 ^ 32 ∧
    (((cleanup l w).shared.g_progr_fdone : ℕ) : ℤ)
      = ((w.shared.g_progr_fdone : ℤ) - (l.fdone : ℤ)) % 2 ^ 32 ∧
    (((cleanup l w).shared.g_progr_ptotal : ℕ) : ℤ)
      = ((w.shared.g_progr_ptotal : ℤ) - (l.ptotal : ℤ)) % 2 ^ 32 ∧
    (((cleanup l w).shared.g_progr_pdone : ℕ) : ℤ)
      = ((w.shared.g_progr_pdone : ℤ) - (l.pdone : ℤ)) % 2 ^ 32 ∧
    (w.shared.g_progr_ptotal = (l.ptotal + 5) % 2 ^ 32 →
      (cleanup l w).shared.g_progr_ptotal = 5) ∧
    (cleanup l w).shared.g_progr = w.shared.g_progr ∧
    (cleanup l w).shared.g_system_progress_canceled = w.shared.g_system_progress_canceled ∧
    (cleanup l w).shared.g_system_progress_stopping = w.shared.g_system_progress_stopping ∧
    (∀ (hst : Host) (text0 : ℕ) (drain : Tick) (nd : Bool) (ws : World),
      select_target hst nd text0
          { ws with shared := { ws.shared with g_system_progress_canceled := false } }
        = (tg, w0) →
      l0 = ⟨0, 0, 0, 0, text0⟩ →
      stop_requested (w1.interfere drain) = false →
      session hst text0 ticks drain nd ws
        = (.finished, tg.native_dlg, cleanup l (close_target tg (w1.interfere drain)))) := by
  obtain ⟨pre, t, post, e, hg, hs, ha, hl⟩ := poll_loop_label_cleared tg ticks l0 w0 l w1 h
  refine ⟨⟨pre, t, post, e, hg, hs, ha, by rw [hl], by rw [hl], by rw [hl], by rw [hl]⟩,
    sub_u32_int _ _, sub_u32_int _ _, sub_u32_int _ _, sub_u32_int _ _, ?_, rfl, rfl, rfl, ?_⟩
  · intro h5
    show sub_u32 w.shared.g_progr_ptotal l.ptotal = 5
    rw [h5]
    unfold sub_u32
    omega
  · intro hst text0 drain nd ws hsel hl0 hstop
    subst hl0
    unfold session
    simp only [hsel, h, hstop]
    rfl

/-- Claim C6. Whatever the shared state was, after the destructor the label is null and the
four counters are 0. -/
theorem dtor_resets (sh : Shared) :
    (progress_dialog_server_dtor sh).g_progr = 0 ∧
    (progress_dialog_server_dtor sh).g_progr_ftotal = 0 ∧
    (progress_dialog_server_dtor sh).g_progr_fdone = 0 ∧
    (progress_dialog_server_dtor sh).g_progr_ptotal = 0 ∧
    (progress_dialog_server_dtor sh).g_progr_pdone = 0 :=
  ⟨rfl, rfl, rfl, rfl, rfl⟩


theorem poll_iteration_effects (tg : Target) (l : Locals) (w : World) :
    (poll_iteration tg l w).2.2.shared = w.shared ∧
    (poll_iteration tg l w).2.2.aborting = w.aborting ∧
    ∃ evs, (poll_iteration tg l w).2.2.log = w.log ++ evs ∧
      ∀ e ∈ evs, poll_event tg e = true := by
  unfold poll_iteration iteration_tail World.emit
  simp only
  split_ifs <;> refine ⟨rfl, rfl, ?_⟩ <;> simp only [List.append_assoc] <;>
    first
    | (refine ⟨_, rfl, ?_⟩; simp [poll_event, *])
    | (refine ⟨[], ?_, ?_⟩ <;> simp)

theorem poll_loop_effects (tg : Target) (ticks : List Tick) :
    ∀ (l : Locals) (w : World),
      (poll_loop tg ticks l w).2.2.shared.g_system_progress_canceled
        = w.shared.g_system_progress_canceled ∧
      ∃ evs, (poll_loop tg ticks l w).2.2.log = w.log ++ evs ∧
        ∀ e ∈ evs, poll_event tg e = true := by
  induction ticks with
  | nil =>
    intro l w
    exact ⟨rfl, [], by simp [poll_loop], by simp⟩
  | cons t ts ih =>
    intro l w
    unfold poll_loop
    simp only
    split_ifs with hs
    · exact ⟨rfl, [], by simp [World.interfere], by simp⟩
    · obtain ⟨e1, -, evs, e2, e3⟩ := poll_iteration_effects tg l (w.interfere t)
      split
      · rename_i l2 w2 hit
        rw [hit] at e1 e2
        simp only at e1 e2
        refine ⟨by rw [e1]; rfl, evs, by rw [e2]; rfl, e3⟩
      · rename_i l2 w2 hit
        rw [hit] at e1 e2
        simp only at e1 e2
        obtain ⟨i1, evs2, i2, i3⟩ := ih l2 w2
        refine ⟨by rw [i1, e1]; rfl, evs ++ evs2, ?_, ?_⟩
        · rw [i2, e2, List.append_assoc]; rfl
        · intro e he
          rcases List.mem_append.mp he with h1 | h1
          · exact e3 e h1
          · exact i3 e h1

theorem shutdown_requests_append (log evs : List Event) (tg : Target)
    (h : ∀ e ∈ evs, poll_event tg e = true) :
    shutdown_requests (log ++ evs) = shutdown_requests log := by
  unfold shutdown_requests
  rw [List.count_append]
  have : List.count (Event.call_from_main_thread MainTask.graceful_shutdown) evs = 0 := by
    rw [List.count_eq_zero]
    intro hmem
    have := h _ hmem
    simp [poll_event] at this
  omega

/-- Claim C7. One call of the close callback, with any status, sets the cancel flag and
submits exactly one task to the main thread, the graceful-shutdown request; however many
passes of the polling loop follow, in any target mode and whatever the other threads store,
the flag stays set and the number of shutdown requests stays one more than before. -/
theorem on_close_single_shutdown (status : ℤ) (w : World) (tg : Target) (ticks : List Tick)
    (l : Locals) :
    (on_close status w).shared.g_system_progress_canceled = true ∧
    (on_close status w).log = w.log ++ [.call_from_main_thread .graceful_shutdown] ∧
    shutdown_requests (on_close status w).log = shutdown_requests w.log + 1 ∧
    (poll_loop tg ticks l (on_close status w)).2.2.shared.g_system_progress_canceled = true ∧
    shutdown_requests (poll_loop tg ticks l (on_close status w)).2.2.log
      = shutdown_requests w.log + 1 := by
  have hc : shutdown_requests (on_close status w).log = shutdown_requests w.log + 1 := by
    simp [on_close, World.emit, shutdown_requests]
  obtain ⟨p1, evs, p2, p3⟩ := poll_loop_effects tg ticks l (on_close status w)
  refine ⟨rfl, rfl, hc, by rw [p1]; rfl, ?_⟩
  rw [p2, shutdown_requests_append _ _ tg p3, hc]


theorem displayed_0_0_4_2 : displayed 0 0 4 2 = 50 :=
  floor_exact_of_dvd (done 0 2) (total 0 4) 50 (by decide) (by decide)

/-- Claim C10 fails on the code. The first session reports to a native overlay and closes it;
`native_dlg` of line 37 is not reset, so in the second session, started with no renderer and
with a host dialog factory available, the test `!native_dlg` of line 91 fails: no host dialog
is created and the update of the second session goes to the closed overlay. -/
theorem stale_native_dlg_blocks_fallback :
    (server 99
      [ ⟨[⟨7, 0, 0, 0, 0, false, false, false⟩], ⟨true, true, false, true⟩,
          [⟨7, 0, 0, 4, 2, false, false, false⟩, ⟨0, 0, 0, 4, 2, false, false, false⟩],
          ⟨0, 0, 0, 4, 2, false, false, false⟩⟩,
        ⟨[⟨9, 0, 0, 0, 0, false, false, false⟩], ⟨false, false, false, true⟩,
          [⟨9, 0, 0, 4, 2, false, false, false⟩],
          ⟨9, 0, 0, 4, 2, false, false, false⟩⟩ ]
      ⟨⟨0, 0, 0, 0, 0, false, false⟩, false, false, []⟩).2.log
      = [.renderer_wait, .native_create, .native_show 7,
         .native_progress_bar_set_message "Please wait",
         .native_set_text 7, .native_progress_bar_set_message "Progress: module 2 of 4",
         .native_progress_bar_set_value 50, .wait_for 10000,
         .native_close, .notify_all,
         .native_set_text 9, .native_progress_bar_set_message "Progress: module 2 of 4",
         .native_progress_bar_set_value 50, .wait_for 10000] := by
  rw [← displayed_0_0_4_2]
  rfl

theorem cleanup_decrements_witness :
    (cleanup ⟨0, 0, 2, 1, 0⟩
      ⟨⟨0, 0, 0, 7, 1, false, false⟩, false, false, []⟩).shared.g_progr_ptotal = 5 :=
  (cleanup_decrements ⟨false, false, false⟩
    [⟨7, 0, 0, 2, 1, false, false, false⟩, ⟨0, 0, 0, 2, 1, false, false, false⟩]
    ⟨0, 0, 0, 0, 7⟩ ⟨0, 0, 2, 1, 0⟩ ⟨⟨7, 0, 0, 0, 0, false, false⟩, false, false, []⟩
    ⟨⟨0, 0, 0, 2, 1, false, false⟩, false, false, [.wait_for 10000]⟩ rfl
    ⟨⟨0, 0, 0, 7, 1, false, false⟩, false, false, []⟩).2.2.2.2.2.1 (by decide)

end SystemProgress
